import Mathlib

/-!
# goautossh: a verification development for `main.go`

A shallow embedding of `main.go` (package `main` of Warashi/goautossh).

* Go `error` values are modelled by `GoError`; `fmt.Errorf("p: %w", err)` is
  `GoError.wrap "p: " err`.
* Calls into the Go standard library (`path/filepath`, `os`, `net`,
  `net/http`, `context`, `time`) are modelled by their documented behaviour;
  results that depend on the outside world (the current user, the directory
  returned by `os.MkdirTemp`, what a round trip returns, the state of a
  context or a timer when a `select` runs) are inputs of the model.
* Functions with side effects return the new state explicitly together with
  the list of events they performed.
-/

namespace Goautossh

/-! ## Errors -/

/-- Go `error` values: a leaf error with its message, or an error made by
`fmt.Errorf(pfx + "%w", inner)`. -/
inductive GoError where
  | mk (msg : String)
  | wrap (pfx : String) (inner : GoError)
  deriving DecidableEq, Repr

/-- The message of an error, `err.Error()`. -/
def GoError.Error : GoError → String
  | .mk msg => msg
  | .wrap pfx inner => pfx ++ inner.Error

/-- The error wrapped by `%w`, `errors.Unwrap(err)`. -/
def GoError.Unwrap : GoError → Option GoError
  | .mk _ => none
  | .wrap _ inner => some inner

/-! ## `path/filepath` (Unix) -/

namespace filepath

/-- The elements of a path: the pieces between the separators `/`. -/
def splitSlash : List Char → List (List Char)
  | [] => [[]]
  | c :: cs =>
    if c = '/' then [] :: splitSlash cs
    else
      match splitSlash cs with
      | [] => [[c]]
      | h :: t => (c :: h) :: t

/-- One round of the loop of `Clean`, on a whole path element `c`; `st` holds
the elements written so far, the last one first.  An empty element and `.`
are dropped; `..` removes the last element when there is one to remove
(`out.w > dotdot`), is kept on a path that is not rooted, and is dropped at
the root; any other element is appended. -/
def cleanStep (rooted : Bool) (st : List (List Char)) (c : List Char) : List (List Char) :=
  if c = [] then st
  else if c = ['.'] then st
  else if c = ['.', '.'] then
    match st with
    | top :: rest =>
      if top = ['.', '.'] then (if rooted then st else c :: st) else rest
    | [] => if rooted then st else c :: st
  else c :: st

/-- The elements written by `Clean`, joined by `/`; the last one comes first
in `st`. -/
def joinRev : List (List Char) → List Char
  | [] => []
  | [c] => c
  | c :: rest => joinRev rest ++ '/' :: c

/-- The output buffer of `Clean`: a leading `/` for a rooted path, the
elements, and `.` when nothing was written. -/
def render (rooted : Bool) (st : List (List Char)) : List Char :=
  if rooted then '/' :: joinRev st
  else if st = [] then ['.'] else joinRev st

/-- Whether a path starts with the separator. -/
def isRooted (p : List Char) : Bool :=
  match p with
  | c :: _ => c = '/'
  | [] => false

/-- The elements `Clean` keeps for a path, the last one first. -/
def stackOf (p : List Char) : List (List Char) :=
  (splitSlash p).foldl (cleanStep (isRooted p)) []

/-- The function `Clean` on the characters of a path. -/
def cleanChars (p : List Char) : List Char :=
  render (isRooted p) (stackOf p)

/-- Go `filepath.Clean`: the shortest path name equivalent to `path` by
purely lexical processing. -/
def Clean (path : String) : String :=
  String.mk (cleanChars path.data)

/-- Go `filepath.Join`: empty elements at the front are ignored, the rest is
joined with `/` and the result is cleaned; all elements empty gives `""`. -/
def Join : List String → String
  | [] => ""
  | e :: es =>
    if e = "" then Join es
    else Clean (String.intercalate "/" (e :: es))

/-- A path element that `Clean` keeps as it is: not empty, not `.`, not
`..`, and without a separator. -/
def simpleName (n : List Char) : Prop :=
  n ≠ [] ∧ n ≠ ['.'] ∧ n ≠ ['.', '.'] ∧ '/' ∉ n

/-- The invariant of the elements `Clean` has written, the last one first:
none is empty, `.` or holds a separator, and `..` stands only on a path that
is not rooted, at the bottom or on another `..`. -/
def validStack (r : Bool) : List (List Char) → Prop
  | [] => True
  | c :: st =>
    (c ≠ [] ∧ c ≠ ['.'] ∧ '/' ∉ c ∧
      (c = ['.', '.'] → r = false ∧ (st = [] ∨ st.head? = some ['.', '.']))) ∧
    validStack r st

end filepath


/-! ## The filesystem -/

/-- The names that exist in the filesystem. -/
abbrev FS := List String

/-- Whether the name `p` denotes `dir` itself or something below it, after
lexical resolution of both names. -/
def isUnder (dir p : String) : Bool :=
  (filepath.isRooted dir.data == filepath.isRooted p.data) &&
    (filepath.stackOf dir.data).isSuffixOf (filepath.stackOf p.data)

/-- Go `os.RemoveAll`: removes `path` and any children it contains. -/
def RemoveAll (path : String) (fs : FS) : FS :=
  fs.filter (fun p => !isUnder path p)

/-! ## Constants and rendezvous paths (`main.go`, lines 19-22 and 45-51) -/

def sendSocketName : String := "goautossh.send.socket"

def listenSocketName : String := "goautossh.listen.socket"

/-- The variable `send` of `_main`: `filepath.Join(tmpdir, sendSocketName)`. -/
def sendPath (tmpdir : String) : String :=
  filepath.Join [tmpdir, sendSocketName]

/-- The variable `listen` of `_main`: `filepath.Join(tmpdir, listenSocketName)`. -/
def listenPath (tmpdir : String) : String :=
  filepath.Join [tmpdir, listenSocketName]

/-- The variable `remote` of `_main`:
`fmt.Sprintf("/tmp/%s.%s", user.Uid, "goautossh.remote.socket")`. -/
def remotePath (uid : String) : String :=
  "/tmp/" ++ uid ++ "." ++ "goautossh.remote.socket"

/-- The variable `args` of `_main` after its three `append`s; `osArgs` is
`os.Args`, whose first element is the program name. -/
def buildArgs (send listen remote : String) (osArgs : List String) : List String :=
  (([] ++ ["-L", send ++ ":" ++ remote]) ++ ["-R", remote ++ ":" ++ listen]) ++ osArgs

/-- The argument list `_main` builds from the temporary directory, the user
id and `os.Args`. -/
def mainArgs (tmpdir uid : String) (osArgs : List String) : List String :=
  buildArgs (sendPath tmpdir) (listenPath tmpdir) (remotePath uid) osArgs

/-! ## The health responder (`main.go`, lines 58-60) -/

/-- A request as the server hands it to a handler. -/
structure Request where
  method : String
  path : String
  body : String
  deriving DecidableEq, Repr

/-- What a handler has written so far: the status, once the header is
written, and the body. -/
structure ResponseWriter where
  status : Option Nat
  body : String
  deriving DecidableEq, Repr

/-- The writer a handler starts with. -/
def ResponseWriter.fresh : ResponseWriter := { status := none, body := "" }

/-- The method `Write` of `http.ResponseWriter`: the first write sends the
header with status 200 when no header was written before. -/
def ResponseWriter.Write (w : ResponseWriter) (s : String) : ResponseWriter :=
  { status := some (w.status.getD 200), body := w.body ++ s }

/-- Go `fmt.Fprintln(w, s)`: writes `s` and a newline. -/
def Fprintln (w : ResponseWriter) (s : String) : ResponseWriter :=
  w.Write (s ++ "\n")

abbrev Handler := ResponseWriter → Request → ResponseWriter

/-- The handler `_main` registers:
`func(w http.ResponseWriter, r *http.Request) { fmt.Fprintln(w, "pong") }`. -/
def pingHandler : Handler :=
  fun w _r => Fprintln w "pong"

/-- The registrations `_main` makes on the default mux: the one call
`http.HandleFunc("/ping", ...)`. -/
def registeredRoutes : List (String × Handler) :=
  [("/ping", pingHandler)]

/-- The handler registered under a pattern, when there is one. -/
def handlerFor (routes : List (String × Handler)) (pattern : String) : Option Handler :=
  (routes.find? (fun e => e.1 == pattern)).map Prod.snd

/-! ## The health prober (`checkHealth`, lines 81-95) -/

/-- The request built by `http.NewRequestWithContext`; `timeoutMs` is the
timeout of the context it carries. -/
structure HTTPRequest where
  timeoutMs : Nat
  method : String
  url : String
  deriving DecidableEq, Repr

/-- A response returned by the client. -/
structure HTTPResponse where
  status : Nat
  body : String
  deriving DecidableEq, Repr

/-- The outside world as one call of `checkHealth` sees it: what
`http.NewRequestWithContext` returns for a timeout, a method and a URL, and
what `client.Do` returns for a request (an error when dialing fails, when
the round trip fails, or when the context of the request is done first). -/
structure Probe where
  newRequest : Nat → String → String → Except GoError HTTPRequest
  clientDo : HTTPRequest → Except GoError HTTPResponse

/-- Go `checkHealth`: `none` is the `nil` error.  On a response the body is
read to the end and closed, whatever the response is. -/
def checkHealth (p : Probe) : Option GoError :=
  match p.newRequest 100 "GET" "http://unix/ping" with
  | .error err => some (.wrap "http.NewRequestWithContext: " err)
  | .ok req =>
    match p.clientDo req with
    | .error err => some (.wrap "client.Do: " err)
    | .ok _resp => none

/-! ## Events and outcomes -/

/-- What the program does that can be seen from outside. -/
inductive Event where
  | notifyContext
  | userCurrent
  | mkdirTemp
  | listen (path : String)
  | handleFunc (pattern : String)
  | serve
  | probe (failed : Bool)
  | spawn (name : String) (args : List String)
  | timerReset (ms : Nat)
  | timerStop
  | cancel
  | removeAll (path : String)
  | stopNotify
  deriving DecidableEq, Repr

/-- How far a function got on the inputs it was given: it returned an error,
it is waiting in a `select` with no case ready, or it is still in its loop
after the last input. -/
inductive Outcome where
  | returned (err : GoError)
  | blocked
  | running
  deriving DecidableEq, Repr

/-- The number of calls of `checkHealth` in a trace. -/
def probeCount (t : List Event) : Nat :=
  (t.filter (fun e => match e with | .probe _ => true | _ => false)).length

/-- Whether an event starts the external program. -/
def Event.isSpawn : Event → Bool
  | .spawn _ _ => true
  | _ => false

/-- The patterns of the calls of `http.HandleFunc` in a trace, in order. -/
def handleFuncPatterns (t : List Event) : List String :=
  t.filterMap (fun e => match e with | .handleFunc pat => some pat | _ => none)

/-! ## The tunnel supervisor (`runSSH`, lines 97-118) -/

/-- The state of the two channels when the `select` of `runSSH` runs:
`ctx.Err()` (`none` while `ctx.Done()` is open), whether a value waits in
`timer.C`, and the choice of the runtime when both cases are ready. -/
structure SelectState where
  ctxErr : Option GoError
  timerFired : Bool
  pickTimer : Bool

/-- The cases of the `select` of `runSSH`. -/
inductive SelectCase where
  | done (err : GoError)
  | timer
  deriving DecidableEq, Repr

/-- The cases of the `select` that can proceed. -/
def readyCases (s : SelectState) : List SelectCase :=
  (match s.ctxErr with
    | some err => [SelectCase.done err]
    | none => []) ++ (if s.timerFired then [SelectCase.timer] else [])

/-- Go `select` without `default`: blocks (`none`) when no case is ready,
takes the ready case when there is one, and one of them, chosen by the
runtime, when there are several. -/
def goSelect (s : SelectState) : Option SelectCase :=
  match readyCases s with
  | [] => none
  | [c] => some c
  | c₁ :: c₂ :: _ => if s.pickTimer then some c₂ else some c₁

/-- One round of the loop of `runSSH`: the `select` and the probe after it. -/
structure SSHIter where
  sel : SelectState
  probe : Probe

/-- The loop of `runSSH` (lines 107-117). -/
def runSSHLoop : List SSHIter → Outcome × List Event
  | [] => (.running, [])
  | it :: rest =>
    match goSelect it.sel with
    | none => (.blocked, [])
    | some (.done err) => (.returned err, [])
    | some .timer =>
      match checkHealth it.probe with
      | some err => (.returned (.wrap "checkHealth: " err), [.probe true])
      | none =>
        ((runSSHLoop rest).1, .probe false :: .timerReset 1000 :: (runSSHLoop rest).2)

/-- The result of `runSSH`; `subCtxCancelled` says whether `cancel` of the
sub-context was called. -/
structure SSHResult where
  outcome : Outcome
  trace : List Event
  subCtxCancelled : Bool

/-- Go `runSSH`: the goroutine that runs `ssh` with `args` on the
sub-context is started, the loop runs, and on return the deferred
`timer.Stop()` and `cancel()` run. -/
def runSSH (args : List String) (iters : List SSHIter) : SSHResult :=
  match (runSSHLoop iters).1 with
  | .returned err =>
    { outcome := .returned err
      trace := .spawn "ssh" args :: (runSSHLoop iters).2 ++ [.timerStop, .cancel]
      subCtxCancelled := true }
  | o =>
    { outcome := o
      trace := .spawn "ssh" args :: (runSSHLoop iters).2
      subCtxCancelled := false }

/-! ## The top-level run (`_main`, lines 31-79) -/

/-- The result of `user.Current()`. -/
structure User where
  Uid : String
  deriving DecidableEq, Repr

/-- One round of the loop of `_main`: the probe, and `ctx.Err()` when the
`select` in the failure branch runs (`none` while `ctx.Done()` is open). -/
structure MainIter where
  probe : Probe
  ctxErr : Option GoError

/-- The loop of `_main` (lines 70-78). -/
def mainLoop : List MainIter → Outcome × List Event
  | [] => (.running, [])
  | it :: rest =>
    match checkHealth it.probe with
    | some _ =>
      match it.ctxErr with
      | some cerr => (.returned (.wrap "ctx.Err: " cerr), [.probe true])
      | none => ((mainLoop rest).1, .probe true :: (mainLoop rest).2)
    | none => ((mainLoop rest).1, .probe false :: (mainLoop rest).2)

/-- The outside world of one run of `_main`: `os.Args`, the results of
`user.Current()`, `os.MkdirTemp("", "")` and `net.Listen` (`none` is
success), the names other processes create while the loop runs, and the
rounds of the loop. -/
structure MainEnv where
  osArgs : List String
  userCurrent : Except GoError User
  mkdirTemp : Except GoError String
  netListen : Option GoError
  created : List String
  iters : List MainIter

/-- The result of `_main`: how it ended, the filesystem it leaves, what it
did, the argument list it built and the routes it registered. -/
structure MainResult where
  outcome : Outcome
  fs : FS
  trace : List Event
  args : Option (List String)
  routes : List (String × Handler)

/-- Go `_main`.  The deferred calls run on every return, the last
registered first: `os.RemoveAll(tmpdir)` once it is registered, then the
`cancel` of `signal.NotifyContext`. -/
def _main (env : MainEnv) (fs : FS) : MainResult :=
  match env.userCurrent with
  | .error err =>
    { outcome := .returned (.wrap "user.Current: " err)
      fs := fs
      trace := [.notifyContext, .userCurrent, .stopNotify]
      args := none
      routes := [] }
  | .ok user =>
    match env.mkdirTemp with
    | .error err =>
      { outcome := .returned (.wrap "os.MkdirTemp: " err)
        fs := fs
        trace := [.notifyContext, .userCurrent, .mkdirTemp, .stopNotify]
        args := none
        routes := [] }
    | .ok tmpdir =>
      let args := mainArgs tmpdir user.Uid env.osArgs
      match env.netListen with
      | some err =>
        { outcome := .returned (.wrap "net.Listen: " err)
          fs := RemoveAll tmpdir (tmpdir :: fs)
          trace := [.notifyContext, .userCurrent, .mkdirTemp, .listen (listenPath tmpdir),
            .removeAll tmpdir, .stopNotify]
          args := some args
          routes := [] }
      | none =>
        let start : List Event :=
          [.notifyContext, .userCurrent, .mkdirTemp, .listen (listenPath tmpdir),
            .handleFunc "/ping", .serve]
        match (mainLoop env.iters).1 with
        | .returned err =>
          { outcome := .returned err
            fs := RemoveAll tmpdir (env.created ++ listenPath tmpdir :: tmpdir :: fs)
            trace := start ++ (mainLoop env.iters).2 ++ [.removeAll tmpdir, .stopNotify]
            args := some args
            routes := registeredRoutes }
        | o =>
          { outcome := o
            fs := env.created ++ listenPath tmpdir :: tmpdir :: fs
            trace := start ++ (mainLoop env.iters).2
            args := some args
            routes := registeredRoutes }


/-! ## Concrete inputs -/

/-- The error of a cancelled context, `context.Canceled`. -/
def canceled : GoError := .mk "context canceled"

/-- A probe whose round trip gets the answer of the health responder. -/
def okProbe : Probe :=
  { newRequest := fun t m u => .ok { timeoutMs := t, method := m, url := u }
    clientDo := fun _ => .ok { status := 200, body := "pong\n" } }

/-- A probe whose round trip fails with the error `err`. -/
def failProbe (err : GoError) : Probe :=
  { newRequest := fun t m u => .ok { timeoutMs := t, method := m, url := u }
    clientDo := fun _ => .error err }

/-- A run started as `goautossh example.com` by the user 1000, with the
temporary directory `/tmp/123`: the first probe fails while the context is
not cancelled, the second fails after the interrupt. -/
def exampleEnv : MainEnv :=
  { osArgs := ["goautossh", "example.com"]
    userCurrent := .ok { Uid := "1000" }
    mkdirTemp := .ok "/tmp/123"
    netListen := none
    created := ["/tmp/123/goautossh.send.socket"]
    iters := [{ probe := failProbe (.mk "connection refused"), ctxErr := none },
      { probe := failProbe canceled, ctxErr := some canceled }] }

/-- A round of `runSSH` reached with the context cancelled and the timer
fired, in which the runtime takes the timer case; the probe on the
cancelled context fails. -/
def cancelledRound : SSHIter :=
  { sel := { ctxErr := some canceled, timerFired := true, pickTimer := true }
    probe := failProbe canceled }

/-- The rounds of `runSSH` in which the timer case is taken and the probe
succeeds: what they add to the trace. -/
def okRounds : Nat → List Event
  | 0 => []
  | n + 1 => .probe false :: .timerReset 1000 :: okRounds n

/-! ## Lemmas on the loops -/

theorem mainLoop_no_spawn (iters : List MainIter) :
    ∀ ev ∈ (mainLoop iters).2, ev.isSpawn = false := by
  induction iters with
  | nil => intro ev h; simp [mainLoop] at h
  | cons it rest ih =>
    intro ev h
    unfold mainLoop at h
    split at h
    · split at h
      · simp at h; subst h; rfl
      · simp at h
        rcases h with h | h
        · subst h; rfl
        · exact ih ev h
    · simp at h
      rcases h with h | h
      · subst h; rfl
      · exact ih ev h

theorem mainLoop_only_probes (iters : List MainIter) :
    ∀ ev ∈ (mainLoop iters).2, ∃ failed, ev = Event.probe failed := by
  induction iters with
  | nil => intro ev h; simp [mainLoop] at h
  | cons it rest ih =>
    intro ev h
    rw [mainLoop] at h
    split at h
    · split at h
      · simp at h; exact ⟨true, h⟩
      · simp at h
        rcases h with h | h
        · exact ⟨true, h⟩
        · exact ih ev h
    · simp at h
      rcases h with h | h
      · exact ⟨false, h⟩
      · exact ih ev h

theorem handleFuncPatterns_mainLoop (iters : List MainIter) :
    handleFuncPatterns (mainLoop iters).2 = [] := by
  unfold handleFuncPatterns
  rw [List.filterMap_eq_nil_iff]
  intro ev hev
  obtain ⟨failed, he⟩ := mainLoop_only_probes iters ev hev
  subst he
  rfl

theorem handleFuncPatterns_append (a b : List Event) :
    handleFuncPatterns (a ++ b) = handleFuncPatterns a ++ handleFuncPatterns b := by
  simp [handleFuncPatterns]

theorem mainLoop_append (pre tail : List MainIter)
    (hpre : ∀ x ∈ pre, checkHealth x.probe = none ∨ x.ctxErr = none) :
    mainLoop (pre ++ tail) =
      ((mainLoop tail).1,
        pre.map (fun x => Event.probe (checkHealth x.probe).isSome) ++ (mainLoop tail).2) := by
  induction pre with
  | nil => simp
  | cons x pre ih =>
    have hx := hpre x (List.mem_cons_self _ _)
    have ih2 := ih (fun y hy => hpre y (List.mem_cons_of_mem _ hy))
    simp only [List.cons_append, List.map_cons]
    rw [mainLoop, ih2]
    cases hc : checkHealth x.probe with
    | none => simp
    | some e =>
      rcases hx with hx | hx
      · rw [hc] at hx; cases hx
      · simp [hx]

theorem mainLoop_returned (iters : List MainIter) (err : GoError)
    (h : (mainLoop iters).1 = .returned err) :
    ∃ x ∈ iters, ∃ c, x.ctxErr = some c ∧ (checkHealth x.probe).isSome = true ∧
      err = .wrap "ctx.Err: " c := by
  induction iters with
  | nil => simp [mainLoop] at h
  | cons it rest ih =>
    unfold mainLoop at h
    split at h
    · rename_i e he
      split at h
      · rename_i cerr hc
        simp at h
        exact ⟨it, List.mem_cons_self _ _, cerr, hc, by simp [he], h.symm⟩
      · obtain ⟨x, hx, c, h1, h2, h3⟩ := ih h
        exact ⟨x, List.mem_cons_of_mem _ hx, c, h1, h2, h3⟩
    · obtain ⟨x, hx, c, h1, h2, h3⟩ := ih h
      exact ⟨x, List.mem_cons_of_mem _ hx, c, h1, h2, h3⟩

theorem mainLoop_not_blocked (iters : List MainIter) :
    (mainLoop iters).1 ≠ .blocked := by
  induction iters with
  | nil => simp [mainLoop]
  | cons it rest ih =>
    unfold mainLoop
    split
    · split
      · simp
      · exact ih
    · exact ih

theorem runSSHLoop_append (pre tail : List SSHIter)
    (hpre : ∀ x ∈ pre, goSelect x.sel = some .timer ∧ checkHealth x.probe = none) :
    runSSHLoop (pre ++ tail) =
      ((runSSHLoop tail).1, okRounds pre.length ++ (runSSHLoop tail).2) := by
  induction pre with
  | nil => simp [okRounds]
  | cons x pre ih =>
    have hx := hpre x (List.mem_cons_self _ _)
    have ih2 := ih (fun y hy => hpre y (List.mem_cons_of_mem _ hy))
    simp only [List.cons_append, List.length_cons]
    rw [runSSHLoop, ih2, hx.1, hx.2]
    simp [okRounds]

theorem probeCount_append (a b : List Event) :
    probeCount (a ++ b) = probeCount a + probeCount b := by
  simp [probeCount]

theorem probeCount_spawn_cons (name : String) (args : List String) (t : List Event) :
    probeCount (Event.spawn name args :: t) = probeCount t := by
  simp [probeCount]

theorem probeCount_okRounds (n : Nat) : probeCount (okRounds n) = n := by
  induction n with
  | zero => rfl
  | succ n ih =>
    simp only [okRounds, probeCount, List.filter_cons] at ih ⊢
    simp [ih]

/-! ## Lemmas on paths -/

namespace filepath

theorem splitSlash_ne_nil (p : List Char) : splitSlash p ≠ [] := by
  cases p with
  | nil => simp [splitSlash]
  | cons c cs =>
    unfold splitSlash
    split
    · simp
    · split <;> simp

theorem splitSlash_append_slash (a b : List Char) :
    splitSlash (a ++ '/' :: b) = splitSlash a ++ splitSlash b := by
  induction a with
  | nil => simp [splitSlash]
  | cons c a ih =>
    simp only [List.cons_append]
    rw [splitSlash, ih]
    by_cases hc : c = '/'
    · simp [hc, splitSlash]
    · simp only [hc, if_false]
      rw [splitSlash]
      simp only [hc, if_false]
      cases h : splitSlash a with
      | nil => exact absurd h (splitSlash_ne_nil a)
      | cons x t => simp

theorem splitSlash_no_slash (n : List Char) (h : '/' ∉ n) : splitSlash n = [n] := by
  induction n with
  | nil => rfl
  | cons c n ih =>
    have hc : c ≠ '/' := fun e => h (e ▸ List.mem_cons_self _ _)
    have hn : '/' ∉ n := fun e => h (List.mem_cons_of_mem _ e)
    rw [splitSlash, ih hn]
    simp [hc]

theorem splitSlash_mem_no_slash (p : List Char) : ∀ c ∈ splitSlash p, '/' ∉ c := by
  induction p with
  | nil => intro c h; simp [splitSlash] at h; subst h; simp
  | cons x p ih =>
    intro c h
    rw [splitSlash] at h
    by_cases hx : x = '/'
    · simp only [hx, if_true, List.mem_cons] at h
      rcases h with h | h
      · subst h; simp
      · exact ih c h
    · simp only [hx, if_false] at h
      cases hs : splitSlash p with
      | nil => exact absurd hs (splitSlash_ne_nil p)
      | cons y t =>
        rw [hs] at h ih
        simp only [List.mem_cons] at h
        rcases h with h | h
        · subst h
          have hy := ih y (List.mem_cons_self _ _)
          intro hm
          simp only [List.mem_cons] at hm
          rcases hm with hm | hm
          · exact hx hm.symm
          · exact hy hm
        · exact ih c (List.mem_cons_of_mem _ h)

theorem cleanStep_simple (r : Bool) (st : List (List Char)) (n : List Char)
    (h : simpleName n) : cleanStep r st n = n :: st := by
  obtain ⟨h1, h2, h3, _⟩ := h
  simp [cleanStep, h1, h2, h3]

theorem validStack_tail (r : Bool) (c : List Char) (st : List (List Char))
    (h : validStack r (c :: st)) : validStack r st := h.2

theorem validStack_cleanStep (r : Bool) (st : List (List Char)) (c : List Char)
    (hv : validStack r st) (hc : '/' ∉ c) : validStack r (cleanStep r st c) := by
  unfold cleanStep
  by_cases h1 : c = []
  · simp [h1, hv]
  by_cases h2 : c = ['.']
  · simp [h2, hv]
  by_cases h3 : c = ['.', '.']
  · simp only [h3, if_true]
    have e1 : (['.', '.'] : List Char) ≠ [] := by simp
    have e2 : (['.', '.'] : List Char) ≠ ['.'] := by simp
    have e3 : '/' ∉ (['.', '.'] : List Char) := by decide
    cases st with
    | nil =>
      cases r with
      | true => simpa using hv
      | false =>
        simp only [Bool.false_eq_true, if_false]
        exact ⟨⟨e1, e2, e3, fun _ => ⟨rfl, Or.inl rfl⟩⟩, hv⟩
    | cons top rest =>
      simp only
      by_cases ht : top = ['.', '.']
      · simp only [ht, if_true]
        cases r with
        | true => simpa [ht] using hv
        | false =>
          simp only [Bool.false_eq_true, if_false]
          refine ⟨⟨e1, e2, e3, fun _ => ⟨rfl, Or.inr rfl⟩⟩, ?_⟩
          simpa [ht] using hv
      · simp only [ht, if_false]
        exact hv.2
  · simp only [h1, h2, h3, if_false]
    exact ⟨⟨h1, h2, hc, fun e => absurd e h3⟩, hv⟩

theorem validStack_foldl (r : Bool) (cs : List (List Char)) :
    ∀ st : List (List Char), validStack r st → (∀ c ∈ cs, '/' ∉ c) →
      validStack r (cs.foldl (cleanStep r) st) := by
  induction cs with
  | nil => intro st hv _; simpa using hv
  | cons c cs ih =>
    intro st hv hc
    simp only [List.foldl_cons]
    exact ih _ (validStack_cleanStep r st c hv (hc c (List.mem_cons_self _ _)))
      (fun x hx => hc x (List.mem_cons_of_mem _ hx))

theorem validStack_stackOf (p : List Char) : validStack (isRooted p) (stackOf p) :=
  validStack_foldl _ _ [] trivial (splitSlash_mem_no_slash p)

theorem isRooted_append (d x : List Char) (h : d ≠ []) :
    isRooted (d ++ x) = isRooted d := by
  cases d with
  | nil => exact absurd rfl h
  | cons c d => rfl

theorem stackOf_append (d n : List Char) (hd : d ≠ []) (hn : simpleName n) :
    stackOf (d ++ '/' :: n) = n :: stackOf d := by
  unfold stackOf
  rw [isRooted_append d _ hd, splitSlash_append_slash, splitSlash_no_slash n hn.2.2.2,
    List.foldl_append]
  simp only [List.foldl_cons, List.foldl_nil]
  exact cleanStep_simple _ _ _ hn

theorem stackOf_nil : stackOf [] = [] := by
  simp [stackOf, splitSlash, cleanStep]

theorem stackOf_simple (n : List Char) (hn : simpleName n) : stackOf n = [n] := by
  unfold stackOf
  rw [splitSlash_no_slash n hn.2.2.2]
  simp only [List.foldl_cons, List.foldl_nil]
  exact cleanStep_simple _ _ _ hn

theorem isRooted_simple (n : List Char) (hn : simpleName n) : isRooted n = false := by
  cases n with
  | nil => rfl
  | cons c n =>
    have : c ≠ '/' := fun e => hn.2.2.2 (e ▸ List.mem_cons_self _ _)
    simp [isRooted, this]

theorem joinRev_cons (n : List Char) (st : List (List Char)) :
    joinRev (n :: st) = if st = [] then n else joinRev st ++ '/' :: n := by
  cases st <;> simp [joinRev]

theorem joinRev_ne_nil (r : Bool) (st : List (List Char)) (hv : validStack r st)
    (hs : st ≠ []) : joinRev st ≠ [] := by
  cases st with
  | nil => exact absurd rfl hs
  | cons c rest =>
    rw [joinRev_cons]
    split
    · exact hv.1.1
    · simp

theorem render_ne_nil (r : Bool) (st : List (List Char)) (hv : validStack r st) :
    render r st ≠ [] := by
  unfold render
  cases r with
  | true => simp
  | false =>
    by_cases hs : st = []
    · simp [hs]
    · simpa [hs] using joinRev_ne_nil false st hv hs

theorem render_cons (r : Bool) (n : List Char) (st : List (List Char)) :
    render r (n :: st) =
      if st = [] then (if r then '/' :: n else n) else render r st ++ '/' :: n := by
  unfold render
  rw [joinRev_cons]
  cases r <;> by_cases hs : st = [] <;> simp [hs]

theorem last_slash_split : ∀ (a b n m : List Char), '/' ∉ n → '/' ∉ m →
    a ++ '/' :: n = b ++ '/' :: m → a = b ∧ n = m := by
  intro a
  induction a with
  | nil =>
    intro b n m hn _ h
    cases b with
    | nil => simp at h; exact ⟨rfl, h⟩
    | cons y b =>
      simp at h
      exact absurd (h.2 ▸ (by simp : '/' ∈ b ++ '/' :: m)) hn
  | cons x a ih =>
    intro b n m hn hm h
    cases b with
    | nil =>
      simp at h
      exact absurd (h.2 ▸ (by simp : '/' ∈ a ++ '/' :: n)) hm
    | cons y b =>
      simp at h
      obtain ⟨h1, h2⟩ := ih b n m hn hm h.2
      exact ⟨by rw [h.1, h1], h2⟩

theorem render_cons_inj (r₁ r₂ : Bool) (st₁ st₂ : List (List Char)) (n m : List Char)
    (hv₁ : validStack r₁ st₁) (hv₂ : validStack r₂ st₂) (hn : '/' ∉ n) (hm : '/' ∉ m)
    (h : render r₁ (n :: st₁) = render r₂ (m :: st₂)) :
    n = m ∧ render r₁ st₁ = render r₂ st₂ := by
  rw [render_cons, render_cons] at h
  have e₁ := render_ne_nil r₁ st₁ hv₁
  have e₂ := render_ne_nil r₂ st₂ hv₂
  by_cases hs₁ : st₁ = [] <;> by_cases hs₂ : st₂ = []
  · subst hs₁; subst hs₂
    cases r₁ <;> cases r₂ <;> simp at h
    · exact ⟨h, rfl⟩
    · exact absurd (h ▸ (by simp : '/' ∈ '/' :: m)) hn
    · exact absurd (h ▸ (by simp : '/' ∈ '/' :: n)) hm
    · exact ⟨h, rfl⟩
  · subst hs₁
    simp only [hs₂, if_true, if_false] at h
    cases r₁ with
    | false =>
      simp only [Bool.false_eq_true, if_false] at h
      exact absurd (h ▸ (by simp : '/' ∈ render r₂ st₂ ++ '/' :: m)) hn
    | true =>
      simp only [if_true] at h
      have := last_slash_split [] (render r₂ st₂) n m hn hm (by simpa using h)
      exact absurd this.1.symm e₂
  · subst hs₂
    simp only [hs₁, if_true, if_false] at h
    cases r₂ with
    | false =>
      simp only [Bool.false_eq_true, if_false] at h
      exact absurd (h ▸ (by simp : '/' ∈ render r₁ st₁ ++ '/' :: n)) hm
    | true =>
      simp only [if_true] at h
      have := last_slash_split (render r₁ st₁) [] n m hn hm (by simpa using h)
      exact absurd this.1 e₁
  · simp only [hs₁, hs₂, if_false] at h
    have := last_slash_split _ _ n m hn hm h
    exact ⟨this.2, this.1⟩

theorem Join_data (d n : String) (hn : simpleName n.data) :
    (Join [d, n]).data = render (isRooted d.data) (n.data :: stackOf d.data) := by
  have hne : n ≠ "" := by
    intro e
    exact hn.1 (by rw [e])
  by_cases hd : d = ""
  · subst hd
    have h1 : Join ["", n] = Clean n := by
      simp [Join, hne, String.intercalate, String.intercalate.go]
    rw [h1]
    show cleanChars n.data = render (isRooted []) (n.data :: stackOf [])
    unfold cleanChars
    rw [stackOf_simple _ hn, isRooted_simple _ hn, stackOf_nil]
    rfl
  · have h1 : Join [d, n] = Clean (d ++ "/" ++ n) := by
      simp [Join, hd, String.intercalate, String.intercalate.go]
    have hd2 : d.data ≠ [] := by
      intro e
      exact hd (String.ext e)
    rw [h1]
    show cleanChars (d ++ "/" ++ n).data = _
    have h2 : (d ++ "/" ++ n).data = d.data ++ '/' :: n.data := by
      simp [String.data_append]
    rw [h2]
    unfold cleanChars
    rw [stackOf_append _ _ hd2 hn, isRooted_append _ _ hd2]

theorem Clean_data (d : String) : (Clean d).data = render (isRooted d.data) (stackOf d.data) :=
  rfl

end filepath

theorem simple_sendSocketName : filepath.simpleName sendSocketName.data := by
  unfold filepath.simpleName sendSocketName
  decide

theorem simple_listenSocketName : filepath.simpleName listenSocketName.data := by
  unfold filepath.simpleName listenSocketName
  decide

theorem Join_ne_of_name_ne (d₁ d₂ n m : String) (hn : filepath.simpleName n.data)
    (hm : filepath.simpleName m.data) (hnm : n ≠ m) :
    filepath.Join [d₁, n] ≠ filepath.Join [d₂, m] := by
  intro h
  have h2 := congrArg String.data h
  rw [filepath.Join_data d₁ n hn, filepath.Join_data d₂ m hm] at h2
  have := filepath.render_cons_inj _ _ _ _ _ _ (filepath.validStack_stackOf _)
    (filepath.validStack_stackOf _) hn.2.2.2 hm.2.2.2 h2
  exact hnm (String.ext this.1)

theorem Join_ne_of_dir_ne (d₁ d₂ n m : String) (hn : filepath.simpleName n.data)
    (hm : filepath.simpleName m.data) (hd : filepath.Clean d₁ ≠ filepath.Clean d₂) :
    filepath.Join [d₁, n] ≠ filepath.Join [d₂, m] := by
  intro h
  have h2 := congrArg String.data h
  rw [filepath.Join_data d₁ n hn, filepath.Join_data d₂ m hm] at h2
  have := filepath.render_cons_inj _ _ _ _ _ _ (filepath.validStack_stackOf _)
    (filepath.validStack_stackOf _) hn.2.2.2 hm.2.2.2 h2
  exact hd (String.ext this.2)

theorem Join_of_clean (d n : String) (hn : filepath.simpleName n.data)
    (hc : filepath.Clean d = d) (h1 : d ≠ "/") (h2 : d ≠ ".") :
    filepath.Join [d, n] = d ++ "/" ++ n := by
  apply String.ext
  rw [filepath.Join_data d n hn, filepath.render_cons]
  have hcd : filepath.render (filepath.isRooted d.data) (filepath.stackOf d.data) = d.data :=
    congrArg String.data hc
  by_cases hs : filepath.stackOf d.data = []
  · exfalso
    rw [hs] at hcd
    cases hr : filepath.isRooted d.data with
    | true =>
      rw [hr] at hcd
      exact h1 (String.ext hcd.symm)
    | false =>
      rw [hr] at hcd
      exact h2 (String.ext hcd.symm)
  · simp only [hs, if_false]
    rw [hcd]
    simp [String.data_append]


/-! ## The claims on the argument list, the loops, the prober and the responder -/

/-- C1: the argument list `_main` builds is the two forwarding directives
followed by the whole of `os.Args`, the program name included; started as
`goautossh example.com` it passes `goautossh` and `example.com` on, which
is not the list of the arguments given after the program name. -/
theorem C1_args_keep_program_name :
    (∀ (tmpdir uid : String) (osArgs : List String),
      mainArgs tmpdir uid osArgs =
        ["-L", sendPath tmpdir ++ ":" ++ remotePath uid,
          "-R", remotePath uid ++ ":" ++ listenPath tmpdir] ++ osArgs) ∧
    (_main exampleEnv []).args =
      some ["-L", "/tmp/123/goautossh.send.socket:/tmp/1000.goautossh.remote.socket",
        "-R", "/tmp/1000.goautossh.remote.socket:/tmp/123/goautossh.listen.socket",
        "goautossh", "example.com"] ∧
    (_main exampleEnv []).args ≠
      some (["-L", sendPath "/tmp/123" ++ ":" ++ remotePath "1000",
        "-R", remotePath "1000" ++ ":" ++ listenPath "/tmp/123"] ++ exampleEnv.osArgs.tail) := by
  refine ⟨fun _ _ _ => rfl, by decide, by decide⟩

/-- C2: `_main` never starts the external program: no trace of `_main`
holds a spawn event, and in the example run the two failed probes follow
each other with no cancel and no spawn between or before them. -/
theorem C2_main_never_spawns :
    (∀ (env : MainEnv) (fs : FS), ∀ ev ∈ (_main env fs).trace, ev.isSpawn = false) ∧
    (_main exampleEnv []).trace =
      [.notifyContext, .userCurrent, .mkdirTemp, .listen "/tmp/123/goautossh.listen.socket",
        .handleFunc "/ping", .serve, .probe true, .probe true,
        .removeAll "/tmp/123", .stopNotify] := by
  refine ⟨?_, by decide⟩
  intro env fs ev h
  unfold _main at h
  split at h
  · simp at h; rcases h with h | h | h <;> subst h <;> rfl
  · split at h
    · simp at h; rcases h with h | h | h | h <;> subst h <;> rfl
    · split at h
      · simp at h; rcases h with h | h | h | h | h | h <;> subst h <;> rfl
      · split at h
        · simp at h
          rcases h with h | h | h | h | h | h | h | h | h
          all_goals first
            | (subst h; rfl)
            | exact mainLoop_no_spawn _ ev h
        · simp at h
          rcases h with h | h | h | h | h | h | h
          all_goals first
            | (subst h; rfl)
            | exact mainLoop_no_spawn _ ev h

/-- C3: when the rounds before it leave the loop of `_main` running (the
probe succeeds, or it fails while the context is not done), a round whose
probe fails with the context done makes the loop return the context error
wrapped with "ctx.Err: "; the loop has then made one probe per round, with
nothing between two probes and no round after the return.  Any error the
loop returns is the wrapped context error of a round whose probe failed, and
the loop never blocks. -/
theorem C3_main_loop (pre rest : List MainIter) (it : MainIter) (e cerr : GoError)
    (hpre : ∀ x ∈ pre, checkHealth x.probe = none ∨ x.ctxErr = none)
    (hfail : checkHealth it.probe = some e) (hdone : it.ctxErr = some cerr) :
    (mainLoop (pre ++ it :: rest)).1 = .returned (.wrap "ctx.Err: " cerr) ∧
    (mainLoop (pre ++ it :: rest)).2 =
      pre.map (fun x => Event.probe (checkHealth x.probe).isSome) ++ [.probe true] ∧
    (∀ (iters : List MainIter) (err : GoError), (mainLoop iters).1 = .returned err →
      ∃ x ∈ iters, ∃ c, x.ctxErr = some c ∧ (checkHealth x.probe).isSome = true ∧
        err = .wrap "ctx.Err: " c) ∧
    (∀ iters : List MainIter, (mainLoop iters).1 ≠ .blocked) := by
  have h := mainLoop_append pre (it :: rest) hpre
  have h2 : mainLoop (it :: rest) =
      (.returned (.wrap "ctx.Err: " cerr), [.probe true]) := by
    rw [mainLoop, hfail, hdone]
  rw [h2] at h
  refine ⟨by rw [h], by rw [h], mainLoop_returned, mainLoop_not_blocked⟩

theorem C3_main_loop_witness :
    (mainLoop ([{ probe := okProbe, ctxErr := some canceled },
        { probe := failProbe (.mk "connection refused"), ctxErr := none }] ++
      { probe := failProbe canceled, ctxErr := some canceled } ::
        [{ probe := okProbe, ctxErr := none }])).1 =
      .returned (.wrap "ctx.Err: " canceled) :=
  (C3_main_loop
    [{ probe := okProbe, ctxErr := some canceled },
      { probe := failProbe (.mk "connection refused"), ctxErr := none }]
    [{ probe := okProbe, ctxErr := none }]
    { probe := failProbe canceled, ctxErr := some canceled }
    (.wrap "client.Do: " canceled) canceled
    (by
      intro x hx
      simp at hx
      rcases hx with hx | hx <;> subst hx
      · left; rfl
      · right; rfl)
    rfl rfl).1

/-- C4: after rounds in which the timer case is taken and the probe
succeeds, a round in which the timer case is taken and the probe fails with
`e` makes `runSSH` return `e` wrapped with "checkHealth: ", after one probe
per round and none later, with the sub-context cancelled; a round in which
the `select` takes the done case instead makes `runSSH` return the context
error as it is, without a probe in that round, the sub-context cancelled
too. -/
theorem C4_runSSH_first_failure (args : List String) (pre rest : List SSHIter)
    (it : SSHIter) (e : GoError)
    (hpre : ∀ x ∈ pre, goSelect x.sel = some .timer ∧ checkHealth x.probe = none)
    (hsel : goSelect it.sel = some .timer) (hfail : checkHealth it.probe = some e) :
    (runSSH args (pre ++ it :: rest)).outcome = .returned (.wrap "checkHealth: " e) ∧
    (runSSH args (pre ++ it :: rest)).trace =
      .spawn "ssh" args :: okRounds pre.length ++ [.probe true] ++ [.timerStop, .cancel] ∧
    probeCount (runSSH args (pre ++ it :: rest)).trace = pre.length + 1 ∧
    (runSSH args (pre ++ it :: rest)).subCtxCancelled = true ∧
    (∀ (it2 : SSHIter) (cerr : GoError), goSelect it2.sel = some (.done cerr) →
      (runSSH args (pre ++ it2 :: rest)).outcome = .returned cerr ∧
      probeCount (runSSH args (pre ++ it2 :: rest)).trace = pre.length ∧
      (runSSH args (pre ++ it2 :: rest)).subCtxCancelled = true) := by
  have h := runSSHLoop_append pre (it :: rest) hpre
  have h2 : runSSHLoop (it :: rest) =
      (.returned (.wrap "checkHealth: " e), [.probe true]) := by
    rw [runSSHLoop, hsel, hfail]
  rw [h2] at h
  have ht : (runSSH args (pre ++ it :: rest)).trace =
      .spawn "ssh" args :: okRounds pre.length ++ [.probe true] ++ [.timerStop, .cancel] := by
    simp [runSSH, h]
  refine ⟨by simp [runSSH, h], ht, ?_, by simp [runSSH, h], ?_⟩
  · rw [ht, probeCount_append, probeCount_append, probeCount_spawn_cons, probeCount_okRounds]
    rfl
  · intro it2 cerr hd
    have h3 := runSSHLoop_append pre (it2 :: rest) hpre
    have h4 : runSSHLoop (it2 :: rest) = (.returned cerr, []) := by
      rw [runSSHLoop, hd]
    rw [h4] at h3
    refine ⟨by simp [runSSH, h3], ?_, by simp [runSSH, h3]⟩
    have ht2 : (runSSH args (pre ++ it2 :: rest)).trace =
        .spawn "ssh" args :: (okRounds pre.length ++ [.timerStop, .cancel]) := by
      simp [runSSH, h3]
    rw [ht2, probeCount_spawn_cons, probeCount_append, probeCount_okRounds]
    rfl

theorem C4_runSSH_first_failure_witness :
    (runSSH ["example.com"]
      ([{ sel := { ctxErr := none, timerFired := true, pickTimer := false }, probe := okProbe }] ++
        { sel := { ctxErr := none, timerFired := true, pickTimer := false },
          probe := failProbe (.mk "connection refused") } :: [])).outcome =
      .returned (.wrap "checkHealth: " (.wrap "client.Do: " (.mk "connection refused"))) ∧
    (runSSH ["example.com"]
      ([{ sel := { ctxErr := none, timerFired := true, pickTimer := false }, probe := okProbe }] ++
        { sel := { ctxErr := some canceled, timerFired := false, pickTimer := false },
          probe := okProbe } :: [])).outcome = .returned canceled :=
  have h := C4_runSSH_first_failure ["example.com"]
    [{ sel := { ctxErr := none, timerFired := true, pickTimer := false }, probe := okProbe }]
    []
    { sel := { ctxErr := none, timerFired := true, pickTimer := false },
      probe := failProbe (.mk "connection refused") }
    (.wrap "client.Do: " (.mk "connection refused"))
    (by
      intro x hx
      simp at hx
      subst hx
      exact ⟨rfl, rfl⟩)
    rfl rfl
  ⟨h.1, (h.2.2.2.2
    { sel := { ctxErr := some canceled, timerFired := false, pickTimer := false },
      probe := okProbe } canceled rfl).1⟩

/-- C5: `checkHealth` fails exactly when building the request fails or the
client returns an error; the failure wraps the underlying error with
"http.NewRequestWithContext: " or "client.Do: "; for every response the
client returns, whatever its status and body, `checkHealth` succeeds.  The
request is a GET of `http://unix/ping` on a context with a timeout of
100 ms. -/
theorem C5_checkHealth (p : Probe) :
    (checkHealth p ≠ none ↔
      (∃ err, p.newRequest 100 "GET" "http://unix/ping" = .error err) ∨
      (∃ req err, p.newRequest 100 "GET" "http://unix/ping" = .ok req ∧
        p.clientDo req = .error err)) ∧
    (∀ err, p.newRequest 100 "GET" "http://unix/ping" = .error err →
      checkHealth p = some (.wrap "http.NewRequestWithContext: " err)) ∧
    (∀ req err, p.newRequest 100 "GET" "http://unix/ping" = .ok req →
      p.clientDo req = .error err → checkHealth p = some (.wrap "client.Do: " err)) ∧
    (∀ req resp, p.newRequest 100 "GET" "http://unix/ping" = .ok req →
      p.clientDo req = .ok resp → checkHealth p = none) := by
  refine ⟨?_, ?_, ?_, ?_⟩
  · unfold checkHealth
    cases h1 : p.newRequest 100 "GET" "http://unix/ping" with
    | error err => simp
    | ok req =>
      cases h2 : p.clientDo req with
      | error err => simp [h2]
      | ok resp => simp [h2]
  · intro err h; simp [checkHealth, h]
  · intro req err h1 h2; simp [checkHealth, h1, h2]
  · intro req resp h1 h2; simp [checkHealth, h1, h2]

theorem C5_checkHealth_witness :
    checkHealth (failProbe (.mk "dial unix: connection refused")) =
      some (.wrap "client.Do: " (.mk "dial unix: connection refused")) ∧
    checkHealth { okProbe with clientDo := fun _ => .ok { status := 500, body := "oops" } } =
      none :=
  ⟨(C5_checkHealth (failProbe (.mk "dial unix: connection refused"))).2.2.1
      { timeoutMs := 100, method := "GET", url := "http://unix/ping" } _ rfl rfl,
    (C5_checkHealth { okProbe with clientDo := fun _ => .ok { status := 500, body := "oops" } }).2.2.2
      { timeoutMs := 100, method := "GET", url := "http://unix/ping" }
      { status := 500, body := "oops" } rfl rfl⟩

/-- C6: the handler for `/ping` writes, for every request, the body "pong"
followed by a newline with status 200: on a fresh writer the result is
exactly that, and on any writer "pong" and the newline are appended and the
status is 200 unless a header was written before.  Every run of `_main` that
gets past `net.Listen` registers exactly one route, the pattern `/ping`
with that handler, by exactly one call of `http.HandleFunc`; no run
registers anything else, and under any other pattern no handler is
registered. -/
theorem C6_ping_handler (r : Request) (w : ResponseWriter) (env : MainEnv) (fs : FS)
    (u : User) (tmpdir : String) :
    pingHandler ResponseWriter.fresh r = { status := some 200, body := "pong\n" } ∧
    pingHandler w r = { status := some (w.status.getD 200), body := w.body ++ "pong\n" } ∧
    (_main { env with userCurrent := .ok u, mkdirTemp := .ok tmpdir, netListen := none }
      fs).routes = [("/ping", pingHandler)] ∧
    handleFuncPatterns
      (_main { env with userCurrent := .ok u, mkdirTemp := .ok tmpdir, netListen := none }
        fs).trace = ["/ping"] ∧
    handlerFor
      (_main { env with userCurrent := .ok u, mkdirTemp := .ok tmpdir, netListen := none }
        fs).routes "/ping" = some pingHandler ∧
    (∀ pat : String, pat ≠ "/ping" →
      handlerFor
        (_main { env with userCurrent := .ok u, mkdirTemp := .ok tmpdir, netListen := none }
          fs).routes pat = none) ∧
    (∀ (env₂ : MainEnv) (fs₂ : FS),
      ((_main env₂ fs₂).routes = [] ∧ handleFuncPatterns (_main env₂ fs₂).trace = []) ∨
      ((_main env₂ fs₂).routes = [("/ping", pingHandler)] ∧
        handleFuncPatterns (_main env₂ fs₂).trace = ["/ping"])) := by
  have hall : ∀ (env₂ : MainEnv) (fs₂ : FS),
      (env₂.netListen = none → (∃ u₂, env₂.userCurrent = .ok u₂) →
        (∃ d, env₂.mkdirTemp = .ok d) →
        (_main env₂ fs₂).routes = [("/ping", pingHandler)] ∧
          handleFuncPatterns (_main env₂ fs₂).trace = ["/ping"]) ∧
      (((_main env₂ fs₂).routes = [] ∧ handleFuncPatterns (_main env₂ fs₂).trace = []) ∨
        ((_main env₂ fs₂).routes = [("/ping", pingHandler)] ∧
          handleFuncPatterns (_main env₂ fs₂).trace = ["/ping"])) := by
    intro env₂ fs₂
    unfold _main
    cases hu : env₂.userCurrent with
    | error e =>
      refine ⟨fun _ h _ => ?_, Or.inl ⟨rfl, rfl⟩⟩
      obtain ⟨u₂, h2⟩ := h
      cases h2
    | ok u₂ =>
      cases hd : env₂.mkdirTemp with
      | error e =>
        refine ⟨fun _ _ h => ?_, Or.inl ⟨rfl, rfl⟩⟩
        obtain ⟨d, h2⟩ := h
        cases h2
      | ok d =>
        cases hl : env₂.netListen with
        | some e =>
          refine ⟨fun h _ _ => ?_, Or.inl ⟨rfl, rfl⟩⟩
          cases h
        | none =>
          have key : ∀ tl : List Event, handleFuncPatterns tl = [] →
              handleFuncPatterns
                ([Event.notifyContext, Event.userCurrent, Event.mkdirTemp,
                  Event.listen (listenPath d), Event.handleFunc "/ping", Event.serve] ++
                  (mainLoop env₂.iters).2 ++ tl) = ["/ping"] := by
            intro tl htl
            rw [handleFuncPatterns_append, handleFuncPatterns_append,
              handleFuncPatterns_mainLoop, htl]
            rfl
          cases ho : (mainLoop env₂.iters).1 with
          | returned e2 =>
            simp only []
            have := key [Event.removeAll d, Event.stopNotify] rfl
            exact ⟨fun _ _ _ => ⟨rfl, this⟩, Or.inr ⟨rfl, this⟩⟩
          | blocked =>
            simp only []
            have := key [] rfl
            rw [List.append_nil] at this
            exact ⟨fun _ _ _ => ⟨rfl, this⟩, Or.inr ⟨rfl, this⟩⟩
          | running =>
            simp only []
            have := key [] rfl
            rw [List.append_nil] at this
            exact ⟨fun _ _ _ => ⟨rfl, this⟩, Or.inr ⟨rfl, this⟩⟩
  have hrun := (hall ⟨env.osArgs, .ok u, .ok tmpdir, none, env.created, env.iters⟩ fs).1
    rfl ⟨u, rfl⟩ ⟨tmpdir, rfl⟩
  refine ⟨by rfl, by rfl, hrun.1, hrun.2, ?_, ?_, fun env₂ fs₂ => (hall env₂ fs₂).2⟩
  · rw [hrun.1]
    rfl
  · intro pat hpat
    rw [hrun.1]
    have : ("/ping" == pat) = false := by
      simp only [beq_eq_false_iff_ne, ne_eq]
      exact fun h2 => hpat h2.symm
    simp [handlerFor, this]

theorem C6_ping_handler_witness :
    pingHandler ResponseWriter.fresh { method := "POST", path := "//ping", body := "x" } =
      { status := some 200, body := "pong\n" } ∧
    (_main exampleEnv []).routes = [("/ping", pingHandler)] ∧
    handleFuncPatterns (_main exampleEnv []).trace = ["/ping"] ∧
    handlerFor (_main exampleEnv []).routes "/pong" = none :=
  have h := C6_ping_handler { method := "POST", path := "//ping", body := "x" }
    ResponseWriter.fresh exampleEnv [] { Uid := "1000" } "/tmp/123"
  ⟨h.1, h.2.2.1, h.2.2.2.1, h.2.2.2.2.2.1 "/pong" (by decide)⟩

/-- C7: the remote rendezvous path is "/tmp/" followed by the user id and
".goautossh.remote.socket", and the argument list of `_main` starts with
`-L send:remote` and `-R remote:listen` for that one remote path; a run
of `_main` for the user id `uid` in the directory `tmpdir` builds that
list. -/
theorem C7_remote_path (tmpdir uid : String) (env : MainEnv) (fs : FS) :
    remotePath uid = "/tmp/" ++ uid ++ ".goautossh.remote.socket" ∧
    (mainArgs tmpdir uid env.osArgs).take 4 =
      ["-L", sendPath tmpdir ++ ":" ++ remotePath uid,
        "-R", remotePath uid ++ ":" ++ listenPath tmpdir] ∧
    (_main { env with userCurrent := .ok { Uid := uid }, mkdirTemp := .ok tmpdir } fs).args =
      some (mainArgs tmpdir uid env.osArgs) := by
  refine ⟨?_, by rfl, ?_⟩
  · unfold remotePath
    rw [String.append_assoc]
    rfl
  · unfold _main
    simp only
    split <;> (try split) <;> rfl

/-- C10, as stated, fails: with the context done and the timer fired at
the `select`, the runtime may take the timer case; `runSSH` then makes a
probe and returns the probe error wrapped with "checkHealth: ", not the
context error. -/
theorem C10_done_and_timer_counterexample :
    SelectCase.done canceled ∈ readyCases cancelledRound.sel ∧
    (runSSH ["example.com"] [cancelledRound]).outcome =
      .returned (.wrap "checkHealth: " (.wrap "client.Do: " canceled)) ∧
    probeCount (runSSH ["example.com"] [cancelledRound]).trace = 1 ∧
    ¬ ((runSSH ["example.com"] [cancelledRound]).outcome = .returned canceled ∧
      probeCount (runSSH ["example.com"] [cancelledRound]).trace = 0) := by
  decide

/-- C10, amended: when the context is done at the `select` and the done
case is the one taken, which is so whenever the timer has not fired or the
runtime does not pick the timer case, `runSSH` returns the context error as
it is and makes no probe in that round or later. -/
theorem C10_cancellation_when_done_taken (args : List String) (pre rest : List SSHIter)
    (it : SSHIter) (cerr : GoError)
    (hpre : ∀ x ∈ pre, goSelect x.sel = some .timer ∧ checkHealth x.probe = none)
    (hdone : it.sel.ctxErr = some cerr)
    (hpick : it.sel.timerFired = false ∨ it.sel.pickTimer = false) :
    (runSSH args (pre ++ it :: rest)).outcome = .returned cerr ∧
    (runSSH args (pre ++ it :: rest)).trace =
      .spawn "ssh" args :: okRounds pre.length ++ [.timerStop, .cancel] ∧
    probeCount (runSSH args (pre ++ it :: rest)).trace = pre.length := by
  have hsel : goSelect it.sel = some (.done cerr) := by
    unfold goSelect readyCases
    rw [hdone]
    rcases hpick with hp | hp
    · simp [hp]
    · cases ht : it.sel.timerFired <;> simp [hp]
  have h := runSSHLoop_append pre (it :: rest) hpre
  have h2 : runSSHLoop (it :: rest) = (.returned cerr, []) := by
    rw [runSSHLoop, hsel]
  rw [h2] at h
  have ht : (runSSH args (pre ++ it :: rest)).trace =
      .spawn "ssh" args :: okRounds pre.length ++ [.timerStop, .cancel] := by
    simp [runSSH, h]
  refine ⟨by simp [runSSH, h], ht, ?_⟩
  rw [ht, probeCount_append, probeCount_spawn_cons, probeCount_okRounds]
  rfl

theorem C10_cancellation_when_done_taken_witness :
    (runSSH ["example.com"]
      ([{ sel := { ctxErr := none, timerFired := true, pickTimer := true }, probe := okProbe }] ++
        { sel := { ctxErr := some canceled, timerFired := true, pickTimer := false },
          probe := okProbe } :: [])).outcome = .returned canceled :=
  (C10_cancellation_when_done_taken ["example.com"]
    [{ sel := { ctxErr := none, timerFired := true, pickTimer := true }, probe := okProbe }]
    []
    { sel := { ctxErr := some canceled, timerFired := true, pickTimer := false },
      probe := okProbe }
    canceled
    (by
      intro x hx
      simp at hx
      subst hx
      exact ⟨rfl, rfl⟩)
    rfl (Or.inr rfl)).1

/-! ## The claims on the rendezvous paths and the temporary directory -/

/-- C8: for every temporary directory `d` the send path and the listen path
are distinct, and for a clean directory name they are `d` followed by
`/goautossh.send.socket` and `/goautossh.listen.socket`; for two distinct
directories (names that differ after lexical cleaning) no path of one run
equals a path of the other.  The paths are functions of the directory alone,
not of the user id. -/
theorem C8_local_paths_collision_free (d₁ d₂ : String)
    (hd : filepath.Clean d₁ ≠ filepath.Clean d₂) :
    (∀ d : String, sendPath d ≠ listenPath d) ∧
    (∀ d : String, filepath.Clean d = d → d ≠ "/" → d ≠ "." →
      sendPath d = d ++ "/goautossh.send.socket" ∧
      listenPath d = d ++ "/goautossh.listen.socket") ∧
    sendPath d₁ ≠ sendPath d₂ ∧ sendPath d₁ ≠ listenPath d₂ ∧
    listenPath d₁ ≠ sendPath d₂ ∧ listenPath d₁ ≠ listenPath d₂ := by
  have hs := simple_sendSocketName
  have hl := simple_listenSocketName
  have hne : sendSocketName ≠ listenSocketName := by decide
  refine ⟨fun d => Join_ne_of_name_ne d d _ _ hs hl hne, ?_,
    Join_ne_of_dir_ne _ _ _ _ hs hs hd, Join_ne_of_dir_ne _ _ _ _ hs hl hd,
    Join_ne_of_dir_ne _ _ _ _ hl hs hd, Join_ne_of_dir_ne _ _ _ _ hl hl hd⟩
  intro d hc h1 h2
  constructor
  · unfold sendPath
    rw [Join_of_clean d _ hs hc h1 h2, String.append_assoc]
    rfl
  · unfold listenPath
    rw [Join_of_clean d _ hl hc h1 h2, String.append_assoc]
    rfl

theorem C8_local_paths_collision_free_witness :
    filepath.Clean "/tmp/123" ≠ filepath.Clean "/tmp/456" ∧
    sendPath "/tmp/123" ≠ listenPath "/tmp/123" ∧
    sendPath "/tmp/123" = "/tmp/123" ++ "/goautossh.send.socket" ∧
    sendPath "/tmp/123" ≠ sendPath "/tmp/456" ∧ sendPath "/tmp/123" ≠ listenPath "/tmp/456" ∧
    listenPath "/tmp/123" ≠ sendPath "/tmp/456" ∧
    listenPath "/tmp/123" ≠ listenPath "/tmp/456" :=
  have h := C8_local_paths_collision_free "/tmp/123" "/tmp/456" (by decide)
  ⟨by decide, h.1 "/tmp/123", (h.2.1 "/tmp/123" (by decide) (by decide) (by decide)).1, h.2.2⟩

end Goautossh
